import Mathlib

/-!
Verification of the restic local storage backend
(`internal/backend/local/local.go`) against its specification.

The filesystem is modelled as a flat association list from paths (lists of
components) to entries; stateful operations take the filesystem and return
it together with an `Except` result, mirroring the Go functions line by
line.  Collaborating code that is not part of the source file (the `fs`
wrappers, `restic.Handle.Valid`, the `backend.Layout` interface and the
`backend.Modes` constants) is modelled from the specification, as marked on
each definition.
-/

namespace LocalBackend

/-- Modelled from the spec (§3 data model): the closed enumeration of
stored-object categories (`restic.FileType` is not part of the source
file). -/
inductive FileType where
  | DataFile
  | KeyFile
  | LockFile
  | SnapshotFile
  | IndexFile
  | ConfigFile
deriving DecidableEq, Repr

/-- Modelled from the spec (§3 data model): a Handle `{Type, Name}`
identifies one stored object. -/
structure Handle where
  type : FileType
  name : String
deriving DecidableEq, Repr

/-- Errors produced by the backend; `wrap` models `errors.Wrap` with the
stage string, `notExist` the OS not-found condition, `exist` the OS
already-exists condition (EEXIST from an exclusive create). -/
inductive Err where
  | notExist
  | exist
  | invalidHandle (s : String)
  | msg (s : String)
  | wrap (stage : String) (e : Err)
deriving DecidableEq, Repr

/-- Modelled from `errors.Cause` (not in the source file): unwrap all
`wrap` layers. -/
def errCause : Err → Err
  | .wrap _ e => errCause e
  | e => e

/-- Modelled from `os.IsNotExist` (consumed interface, spec §6). -/
def osIsNotExist (e : Err) : Bool :=
  decide (e = .notExist)

/-- Modelled from the spec (§3, §4.1): `Handle.Valid` checks that `Name`
is non-empty for all types except the config type, whose name must be
empty; `none` means valid. -/
def Handle.valid (h : Handle) : Option Err :=
  if h.type = .ConfigFile then
    if h.name = "" then none else some (.invalidHandle "name must be empty")
  else
    if h.name = "" then some (.invalidHandle "invalid Name") else none

deriving instance DecidableEq for Except

/-- A filesystem path, as a list of components below the root. -/
abbrev Path := List String

/-- A filesystem entry: a regular or special file with its Go mode bits and
contents, or a directory with its mode bits. -/
inductive Entry where
  | file (mode : Nat) (data : List Nat)
  | dir (mode : Nat)
deriving DecidableEq, Repr

/-- The filesystem state: an association list from paths to entries
(earlier bindings shadow later ones). -/
abbrev FS := List (Path × Entry)

/-- Look a path up in the filesystem. -/
def fsLookup (fs : FS) (p : Path) : Option Entry :=
  match fs with
  | [] => none
  | (q, e) :: rest => if q = p then some e else fsLookup rest p

/-- Drop every binding of path `p`. -/
def fsErase (fs : FS) (p : Path) : FS :=
  fs.filter (fun qe => decide (qe.1 ≠ p))

/-- Bind path `p` to entry `e`, replacing any previous binding. -/
def fsInsert (fs : FS) (p : Path) (e : Entry) : FS :=
  (p, e) :: fsErase fs p

/-- Modelled from `fs.HasPathPrefix` (not in the source file; spec §4.4
"lies under that subtree"): `pathUnder base p` holds when `base` is an
ancestor of `p` or equal to it. -/
def pathUnder : Path → Path → Bool
  | [], _ => true
  | _ :: _, [] => false
  | a :: as, b :: bs => a == b && pathUnder as bs

/-- Go `os` mode bit: directory. -/
def modeDir : Nat := 2 ^ 31

/-- Go `os` mode bit: symbolic link. -/
def modeSymlink : Nat := 2 ^ 27

/-- Go `os` mode bit: device file. -/
def modeDevice : Nat := 2 ^ 26

/-- Go `os` mode bit: named pipe. -/
def modeNamedPipe : Nat := 2 ^ 25

/-- Go `os` mode bit: socket. -/
def modeSocket : Nat := 2 ^ 24

/-- Go `os` mode bit: character device. -/
def modeCharDevice : Nat := 2 ^ 21

/-- Go `os` mode bit: irregular file. -/
def modeIrregular : Nat := 2 ^ 19

/-- Go `os.ModeType`: the union of all type bits. -/
def modeType : Nat :=
  modeDir ||| modeSymlink ||| modeNamedPipe ||| modeSocket ||| modeDevice |||
    modeCharDevice ||| modeIrregular

/-- Embeds `isFile` (local.go lines 241-243): an entry is a regular file
when its mode has no type bit and no character-device bit set. -/
def isFile (mode : Nat) : Bool :=
  mode &&& (modeType ||| modeCharDevice) == 0

/-- Modelled from the spec (§6 permission modes): `backend.Modes.File`,
the fixed read-only mode objects are written with. -/
def modesFile : Nat := 0o400

/-- Modelled from the spec (§6 permission modes): `backend.Modes.Dir`. -/
def modesDir : Nat := 0o700

/-- Modelled from `fs.Open` + `Stat` + `IsDir` as used by `dirExists`
(local.go lines 29-45): the path exists and is a directory. -/
def dirExists (fs : FS) (p : Path) : Bool :=
  match fsLookup fs p with
  | some (.dir _) => true
  | _ => false

/-- POSIX requirement of `open`: the parent directory of the path exists
(the root `[]` always exists). -/
def parentDirOk (fs : FS) (p : Path) : Bool :=
  p.dropLast.isEmpty || dirExists fs p.dropLast

/-- Modelled from `fs.OpenFile` with `O_CREATE|O_EXCL|O_WRONLY` (consumed
interface, spec §6): fails with EEXIST if the path is taken, with ENOENT
if the parent directory is missing, and otherwise creates an empty file
with the given mode. -/
def openFileExcl (fs : FS) (p : Path) (mode : Nat) : Except Err FS :=
  match fsLookup fs p with
  | some _ => .error .exist
  | none =>
      if parentDirOk fs p then .ok (fsInsert fs p (.file mode []))
      else .error .notExist

/-- Modelled from `fs.Chmod` (consumed interface, spec §6): set the mode
bits of an existing entry, ENOENT otherwise. -/
def chmod (fs : FS) (p : Path) (mode : Nat) : Except Err FS :=
  match fsLookup fs p with
  | none => .error .notExist
  | some (.file _ d) => .ok (fsInsert fs p (.file mode d))
  | some (.dir _) => .ok (fsInsert fs p (.dir mode))

/-- Modelled from `fs.Remove` (consumed interface, spec §6): delete an
existing entry, ENOENT otherwise. -/
def fsRemoveEntry (fs : FS) (p : Path) : Except Err FS :=
  match fsLookup fs p with
  | some _ => .ok (fsErase fs p)
  | none => .error .notExist

/-- Modelled from `fs.MkdirAll` (consumed interface, spec §6), inner
recursion: create every missing component of the path as a directory,
left to right; a non-directory in the way is an error, and directories
created before the failure point are kept. -/
def mkdirAllAux (fs : FS) (pre : Path) (rest : List String) (mode : Nat) :
    Except Err Unit × FS :=
  match rest with
  | [] => (.ok (), fs)
  | c :: cs =>
      let q := pre ++ [c]
      match fsLookup fs q with
      | some (.dir _) => mkdirAllAux fs q cs mode
      | some (.file _ _) => (.error (.msg "mkdir: not a directory"), fs)
      | none => mkdirAllAux (fsInsert fs q (.dir mode)) q cs mode

/-- Modelled from `fs.MkdirAll` (consumed interface, spec §6). -/
def mkdirAll (fs : FS) (p : Path) (mode : Nat) : Except Err Unit × FS :=
  mkdirAllAux fs [] p mode

/-- Modelled from the spec (§3, §4.2): the Layout strategy, resolved once
at construction time (`backend.Layout` and `ParseLayout` are not in the
source file). -/
structure Layout where
  filename : Handle → Path
  dirname : Handle → Path
  basedir : FileType → Path
  paths : List Path

/-- Embeds the `Local` struct (local.go lines 17-21): the backend owns its
resolved Layout (the `Config` only feeds `ParseLayout` and `Location`). -/
structure Local where
  layout : Layout

/-- Path of the object named by a handle (`Layout.Filename`). -/
def Local.filename (b : Local) (h : Handle) : Path :=
  b.layout.filename h

/-- Directory that would contain a handle's object (`Layout.Dirname`). -/
def Local.dirname (b : Local) (h : Handle) : Path :=
  b.layout.dirname h

/-- Modelled from `io.Reader` as consumed by `io.Copy` in `Save`: the
chunks the source delivers, followed by either end-of-stream or a read
error. -/
structure Reader where
  chunks : List (List Nat)
  readErr : Bool
deriving DecidableEq, Repr

/-- All bytes the reader delivers before end-of-stream or its error. -/
def Reader.bytes (r : Reader) : List Nat :=
  r.chunks.flatten

/-- Faults the filesystem may inject into one `Save` call: whether
`f.Sync()` and `f.Close()` fail (spec §7, I/O failure). -/
structure SaveFaults where
  syncErr : Bool
  closeErr : Bool
deriving DecidableEq, Repr

/-- Embeds the lazy lock-directory step of `Local.Save` (local.go lines
127-135): for lock-type handles whose directory is missing, `MkdirAll`
it, wrapping a failure as "MkdirAll". -/
def saveLockDir (b : Local) (fs : FS) (h : Handle) : Except Err Unit × FS :=
  if h.type = .LockFile ∧ dirExists fs (b.dirname h) = false then
    match mkdirAll fs (b.dirname h) modesDir with
    | (.error e, fs1) => (.error (.wrap "MkdirAll" e), fs1)
    | (.ok _, fs1) => (.ok (), fs1)
  else (.ok (), fs)

/-- Embeds the body of `Local.Save` (local.go lines 137-162): open the
final name with create-exclusive-write-only semantics; copy the data;
sync; close; finally harden the file mode (`setNewFileMode`, modelled as
a chmod to `Modes.File`).  Copy, sync and close errors are wrapped with
their stage name and leave the partially written file in place. -/
def saveCopy (b : Local) (fs1 : FS) (h : Handle) (rd : Reader)
    (fa : SaveFaults) : Except Err Unit × FS :=
  match openFileExcl fs1 (b.filename h) modesFile with
  | .error e => (.error (.wrap "OpenFile" e), fs1)
  | .ok fs2 =>
    let fs3 := fsInsert fs2 (b.filename h) (Entry.file modesFile rd.bytes)
    if rd.readErr then (.error (.wrap "Write" (.msg "read error")), fs3)
    else if fa.syncErr then (.error (.wrap "Sync" (.msg "sync error")), fs3)
    else if fa.closeErr then (.error (.wrap "Close" (.msg "close error")), fs3)
    else
      match chmod fs3 (b.filename h) modesFile with
      | .error e => (.error e, fs3)
      | .ok fs4 => (.ok (), fs4)

/-- Embeds `Local.Save` (local.go lines 121-163): validate the handle,
run the lazy lock-directory step, then the open/copy/sync/close body. -/
def Local.save (b : Local) (fs : FS) (h : Handle) (rd : Reader)
    (fa : SaveFaults) : Except Err Unit × FS :=
  match h.valid with
  | some e => (.error e, fs)
  | none =>
    match saveLockDir b fs h with
    | (.error e, fs1) => (.error e, fs1)
    | (.ok _, fs1) => saveCopy b fs1 h rd fa

/-- Embeds `Local.Load` (local.go lines 168-196), summarised by the full
byte sequence the returned stream yields: validate the handle; reject a
negative offset; open the file; seek to the offset; limit to `length`
bytes when `length > 0`. -/
def Local.loadContents (b : Local) (fs : FS) (h : Handle) (length : Int)
    (offset : Int) : Except Err (List Nat) :=
  match h.valid with
  | some e => .error e
  | none =>
    if offset < 0 then .error (.msg "offset is negative")
    else
      match fsLookup fs (b.filename h) with
      | none => .error .notExist
      | some (.dir _) => .error (.msg "is a directory")
      | some (.file _ data) =>
          let tail := data.drop offset.toNat
          .ok (if length > 0 then tail.take length.toNat else tail)

/-- Embeds `Local.Stat` (local.go lines 199-211): validate the handle,
stat the file, return its size. -/
def Local.statSize (b : Local) (fs : FS) (h : Handle) : Except Err Nat :=
  match h.valid with
  | some e => .error e
  | none =>
    match fsLookup fs (b.filename h) with
    | none => .error (.wrap "Stat" .notExist)
    | some (.file _ d) => .ok d.length
    | some (.dir _) => .ok 0

/-- Embeds `Local.Test` (local.go lines 214-225): stat the file name; a
not-found error maps to `false` with no error.  Note there is no handle
validation in the source. -/
def Local.test (b : Local) (fs : FS) (h : Handle) : Except Err Bool :=
  match fsLookup fs (b.filename h) with
  | none => .ok false
  | some _ => .ok true

/-- Embeds `Local.IsNotExist` (local.go lines 116-118). -/
def Local.isNotExist (_ : Local) (e : Err) : Bool :=
  osIsNotExist (errCause e)

/-- Embeds `Local.Remove` (local.go lines 228-239): chmod the file back to
writable (0666), then delete it.  Note there is no handle validation in
the source. -/
def Local.remove (b : Local) (fs : FS) (h : Handle) : Except Err Unit × FS :=
  let fn := b.filename h
  match chmod fs fn 0o666 with
  | .error e => (.error (.wrap "Chmod" e), fs)
  | .ok fs1 =>
    match fsRemoveEntry fs1 fn with
    | .error e => (.error e, fs1)
    | .ok fs2 => (.ok (), fs2)

/-- Loop shared by `Open` (local.go lines 61-72) and `Create` (lines
100-105): `MkdirAll` each listed directory that passes the filter (Open
filters to paths under the data directory, Create takes all), stopping at
the first error, which is wrapped as "MkdirAll". -/
def dirsLoop (flt : Path → Bool) (fs : FS) (ds : List Path) :
    Except Err Unit × FS :=
  match ds with
  | [] => (.ok (), fs)
  | d :: rest =>
    if flt d then
      match mkdirAll fs d modesDir with
      | (.error e, fs1) => (.error (.wrap "MkdirAll" e), fs1)
      | (.ok _, fs1) => dirsLoop flt fs1 rest
    else dirsLoop flt fs rest

/-- Embeds `Open` (local.go lines 48-76) after layout resolution
(`ParseLayout` is not in the source file, so the resolved Layout is taken
as the argument): if the data-type directory exists, re-create every
`Paths()` entry lying under it; otherwise touch nothing.  The root
directory itself is never checked. -/
def openBackend (L : Layout) (fs : FS) : Except Err Local × FS :=
  let be : Local := ⟨L⟩
  let datadir := be.dirname ⟨.DataFile, ""⟩
  if dirExists fs datadir = true then
    match dirsLoop (fun d => pathUnder datadir d) fs L.paths with
    | (.error e, fs1) => (.error e, fs1)
    | (.ok _, fs1) => (.ok be, fs1)
  else (.ok be, fs)

/-- Embeds `Create` (local.go lines 80-108) after layout resolution: fail
if `Lstat` finds the config object at its resolved path, else `MkdirAll`
every `Paths()` entry. -/
def createBackend (L : Layout) (fs : FS) : Except Err Local × FS :=
  let be : Local := ⟨L⟩
  match fsLookup fs (be.filename ⟨.ConfigFile, ""⟩) with
  | some _ => (.error (.msg "config file already exists"), fs)
  | none =>
    match dirsLoop (fun _ => true) fs L.paths with
    | (.error e, fs1) => (.error e, fs1)
    | (.ok _, fs1) => (.ok be, fs1)

/-- A directory tree as seen by `fs.Walk`: each node carries the entry's
base name, its Go mode bits, and its children (empty for non-directories).
This is the subtree rooted at `Basedir(t)` that `List` walks. -/
inductive FTree where
  | mk (nm : String) (mode : Nat) (children : List FTree)

mutual

/-- Preorder listing of a subtree as produced by `fs.Walk` (consumed
interface, spec §6): each visited entry's base name and mode bits, the
node before its children. -/
def walkList : FTree → List (String × Nat)
  | .mk nm m cs => (nm, m) :: walkAll cs

/-- Preorder listing of a forest, left to right. -/
def walkAll : List FTree → List (String × Nat)
  | [] => []
  | t :: ts => walkList t ++ walkAll ts

end

/-- One invocation of the walk callback of `Local.List` (local.go lines
255-271) on an entry, under a deterministic scenario: `cancelled` means
the context's done signal already fired and the consumer is not draining
(so the `select` takes the done branch); otherwise the consumer is
draining and the send succeeds.  The incoming walk error is `nil` in an
error-free walk, so every `return err` returns `none`.  Result: the name
emitted to the channel, if any, and the error returned to the walk. -/
def callbackResult (cancelled : Bool) (e : String × Nat) :
    Option String × Option Err :=
  if isFile e.2 = false then (none, none)
  else if cancelled then (none, none)
  else (some e.1, none)

/-- The walk driving the callback over the visited entries (`fs.Walk`
aborts as soon as the callback returns a non-nil error): returns the
names emitted in order and the number of entries visited. -/
def runCallbacks (cancelled : Bool) : List (String × Nat) → List String × Nat
  | [] => ([], 0)
  | e :: es =>
    match callbackResult cancelled e with
    | (emit, some _) => (emit.toList, 1)
    | (emit, none) =>
        let rest := runCallbacks cancelled es
        (emit.toList ++ rest.1, rest.2 + 1)

/-- Embeds the producer goroutine of `Local.List` (local.go lines
247-275) walking the subtree at `Basedir(t)`: the names sent to the
channel before it is closed, and how many entries the walk visited. -/
def listProducer (cancelled : Bool) (t : FTree) : List String × Nat :=
  runCallbacks cancelled (walkList t)

/-- Directory name for each file type in the concrete test layout. -/
def typeDirName : FileType → String
  | .DataFile => "data"
  | .KeyFile => "keys"
  | .LockFile => "locks"
  | .SnapshotFile => "snapshots"
  | .IndexFile => "index"
  | .ConfigFile => "config"

/-- A concrete Layout instance used to evaluate the theorems on explicit
inputs: the config object lives directly under the root, every other type
in its own subdirectory, and `Paths()` lists the type directories plus
one shard directory under `data`. -/
def simpleLayout : Layout where
  filename h :=
    match h.type with
    | .ConfigFile => ["config"]
    | t => [typeDirName t, h.name]
  dirname h :=
    match h.type with
    | .ConfigFile => []
    | t => [typeDirName t]
  basedir t :=
    match t with
    | .ConfigFile => []
    | t => [typeDirName t]
  paths :=
    [["data"], ["data", "aa"], ["index"], ["keys"], ["locks"], ["snapshots"]]

/-! ### Basic lemmas about the filesystem model -/

theorem fsLookup_erase (fs : FS) (p q : Path) :
    fsLookup (fsErase fs p) q = if q = p then none else fsLookup fs q := by
  induction fs with
  | nil => simp [fsErase, fsLookup]
  | cons pe rest ih =>
      obtain ⟨r, e⟩ := pe
      by_cases hrp : r = p
      · have hstep : fsErase ((r, e) :: rest) p = fsErase rest p := by
          simp [fsErase, List.filter_cons, hrp]
        rw [hstep, ih]
        by_cases hqp : q = p
        · simp [hqp]
        · have hrq : ¬ r = q := by rw [hrp]; exact fun h => hqp h.symm
          simp [fsLookup, hqp, hrq]
      · have hstep : fsErase ((r, e) :: rest) p = (r, e) :: fsErase rest p := by
          simp [fsErase, List.filter_cons, hrp]
        rw [hstep]
        by_cases hrq : r = q
        · have hqp : ¬ q = p := fun h => hrp (hrq.trans h)
          simp [fsLookup, hrq, hqp]
        · simp [fsLookup, hrq, ih]

theorem fsLookup_insert (fs : FS) (p : Path) (e : Entry) (q : Path) :
    fsLookup (fsInsert fs p e) q = if q = p then some e else fsLookup fs q := by
  by_cases hqp : q = p
  · simp [fsInsert, fsLookup, hqp]
  · simp only [fsInsert, fsLookup]
    rw [if_neg (fun h => hqp h.symm), fsLookup_erase, if_neg hqp, if_neg hqp]

theorem fsLookup_insert_self (fs : FS) (p : Path) (e : Entry) :
    fsLookup (fsInsert fs p e) p = some e := by
  rw [fsLookup_insert, if_pos rfl]

/-! ### Path-ancestor lemmas -/

theorem pathUnder_iff (a : Path) : ∀ b : Path, pathUnder a b = true ↔ a <+: b := by
  induction a with
  | nil => intro b; simp [pathUnder]
  | cons x xs ih =>
      intro b
      cases b with
      | nil => simp [pathUnder]
      | cons y ys =>
          simp [pathUnder, List.cons_prefix_cons, ih, Bool.and_eq_true, beq_iff_eq]

theorem pathUnder_refl (a : Path) : pathUnder a a = true :=
  (pathUnder_iff a a).mpr (List.prefix_refl a)

theorem pathUnder_append (a r : Path) : pathUnder a (a ++ r) = true :=
  (pathUnder_iff a (a ++ r)).mpr (List.prefix_append a r)

theorem pathUnder_comparable {a b c : Path} (hac : pathUnder a c = true)
    (hbc : pathUnder b c = true) :
    pathUnder a b = true ∨ pathUnder b a = true := by
  rw [pathUnder_iff] at hac hbc ⊢
  rw [pathUnder_iff]
  exact List.prefix_or_prefix_of_prefix hac hbc

/-! ### Lemmas about `mkdirAll` -/

/-- A `mkdirAll` run changes the filesystem only at nonempty ancestors of
its target that were previously absent: any path outside the target's
ancestor chain, the root, or any path already bound keeps its binding. -/
theorem mkdirAllAux_preserve (mode : Nat) :
    ∀ (rest : List String) (fs : FS) (pre : Path) (p : Path),
      (pathUnder p (pre ++ rest) = false ∨ p = [] ∨ fsLookup fs p ≠ none) →
      fsLookup (mkdirAllAux fs pre rest mode).2 p = fsLookup fs p := by
  intro rest
  induction rest with
  | nil => intro fs pre p _; simp [mkdirAllAux]
  | cons c cs ih =>
      intro fs pre p hp
      have hfull : pre ++ c :: cs = (pre ++ [c]) ++ cs := by simp
      rw [hfull] at hp
      cases hq : fsLookup fs (pre ++ [c]) with
      | some e =>
          cases e with
          | dir m =>
              simp only [mkdirAllAux, hq]
              exact ih fs (pre ++ [c]) p hp
          | file m d => simp [mkdirAllAux, hq]
      | none =>
          simp only [mkdirAllAux, hq]
          have hqp : p ≠ pre ++ [c] := by
            rcases hp with hp | hp | hp
            · intro hc; subst hc
              rw [pathUnder_append] at hp
              exact Bool.noConfusion hp
            · intro hc; subst hp; simp at hc
            · intro hc; subst hc; exact hp hq
          have hins : fsLookup (fsInsert fs (pre ++ [c]) (Entry.dir mode)) p
              = fsLookup fs p := by
            rw [fsLookup_insert, if_neg hqp]
          rw [← hins]
          refine ih _ (pre ++ [c]) p ?_
          rcases hp with hp | hp | hp
          · left; exact hp
          · right; left; exact hp
          · right; right; rw [hins]; exact hp

theorem mkdirAll_preserve (fs : FS) (p d : Path) (mode : Nat)
    (hp : pathUnder p d = false ∨ p = [] ∨ fsLookup fs p ≠ none) :
    fsLookup (mkdirAll fs d mode).2 p = fsLookup fs p := by
  have := mkdirAllAux_preserve mode d fs [] p (by simpa using hp)
  simpa [mkdirAll] using this

/-- A successful `mkdirAll` leaves a directory at its (nonempty) target. -/
theorem mkdirAllAux_ensures (mode : Nat) :
    ∀ (rest : List String) (fs : FS) (pre : Path) (u : Unit) (fs' : FS),
      rest ≠ [] → mkdirAllAux fs pre rest mode = (.ok u, fs') →
      dirExists fs' (pre ++ rest) = true := by
  intro rest
  induction rest with
  | nil => intro _ _ _ _ h; exact fun _ => absurd rfl h
  | cons c cs ih =>
      intro fs pre u fs' _ hrun
      have hfull : pre ++ c :: cs = (pre ++ [c]) ++ cs := by simp
      cases hq : fsLookup fs (pre ++ [c]) with
      | some e =>
          cases e with
          | dir m =>
              simp only [mkdirAllAux, hq] at hrun
              cases cs with
              | nil =>
                  simp only [mkdirAllAux, Prod.mk.injEq] at hrun
                  obtain ⟨-, h2⟩ := hrun
                  subst h2
                  simp [dirExists, hq]
              | cons c' cs' =>
                  rw [hfull]
                  exact ih fs (pre ++ [c]) u fs' (by simp) hrun
          | file m d =>
              simp only [mkdirAllAux, hq] at hrun
              simp at hrun
      | none =>
          simp only [mkdirAllAux, hq] at hrun
          cases cs with
          | nil =>
              simp only [mkdirAllAux, Prod.mk.injEq] at hrun
              obtain ⟨-, h2⟩ := hrun
              subst h2
              simp [dirExists, fsLookup_insert_self]
          | cons c' cs' =>
              rw [hfull]
              exact ih _ (pre ++ [c]) u fs' (by simp) hrun

theorem mkdirAll_ensures (fs : FS) (d : Path) (mode : Nat) (u : Unit) (fs' : FS)
    (hd : d ≠ []) (hrun : mkdirAll fs d mode = (.ok u, fs')) :
    dirExists fs' d = true := by
  have := mkdirAllAux_ensures mode d fs [] u fs' hd (by simpa [mkdirAll] using hrun)
  simpa using this

theorem mkdirAll_preserve_some (fs : FS) (d : Path) (mode : Nat) (p : Path)
    (e : Entry) (hlk : fsLookup fs p = some e) :
    fsLookup (mkdirAll fs d mode).2 p = some e := by
  rw [mkdirAll_preserve fs p d mode (Or.inr (Or.inr (by rw [hlk]; exact fun h => Option.noConfusion h)))]
  exact hlk

theorem mkdirAll_preserve_dir (fs : FS) (d : Path) (mode : Nat) (p : Path)
    (h : dirExists fs p = true) : dirExists (mkdirAll fs d mode).2 p = true := by
  unfold dirExists at h ⊢
  cases hlk : fsLookup fs p with
  | none => rw [hlk] at h; exact Bool.noConfusion h
  | some e =>
      cases e with
      | file m dt => rw [hlk] at h; exact Bool.noConfusion h
      | dir m => rw [mkdirAll_preserve_some fs d mode p _ hlk]

theorem dirsLoop_preserve_some (flt : Path → Bool) :
    ∀ (ds : List Path) (fs : FS) (p : Path) (e : Entry),
      fsLookup fs p = some e →
      fsLookup (dirsLoop flt fs ds).2 p = some e := by
  intro ds
  induction ds with
  | nil => intro fs p e h; simpa [dirsLoop] using h
  | cons d rest ih =>
      intro fs p e h
      by_cases hflt : flt d = true
      · cases hmk : mkdirAll fs d modesDir with
        | mk r fs1 =>
            have h1 : fsLookup fs1 p = some e := by
              have := mkdirAll_preserve_some fs d modesDir p e h
              rw [hmk] at this
              exact this
            cases r with
            | error e0 => simp only [dirsLoop, hflt, if_pos, hmk]; exact h1
            | ok u => simp only [dirsLoop, hflt, if_pos, hmk]; exact ih fs1 p e h1
      · simp only [dirsLoop, if_neg hflt]
        exact ih fs p e h

theorem dirsLoop_preserve_dir (flt : Path → Bool) (ds : List Path) (fs : FS)
    (p : Path) (h : dirExists fs p = true) :
    dirExists (dirsLoop flt fs ds).2 p = true := by
  unfold dirExists at h ⊢
  cases hlk : fsLookup fs p with
  | none => rw [hlk] at h; exact Bool.noConfusion h
  | some e =>
      cases e with
      | file m dt => rw [hlk] at h; exact Bool.noConfusion h
      | dir m => rw [dirsLoop_preserve_some flt ds fs p _ hlk]

/-- A successful directory loop run leaves a directory at every listed
(nonempty) path passing the filter. -/
theorem dirsLoop_ensures (flt : Path → Bool) :
    ∀ (ds : List Path) (fs : FS) (u : Unit) (fs' : FS),
      dirsLoop flt fs ds = (.ok u, fs') →
      ∀ d, d ∈ ds → flt d = true → d ≠ [] → dirExists fs' d = true := by
  intro ds
  induction ds with
  | nil => intro fs u fs' _ d hd; exact absurd hd (List.not_mem_nil d)
  | cons d0 rest ih =>
      intro fs u fs' hrun d hd hflt hdne
      by_cases hflt0 : flt d0 = true
      · cases hmk : mkdirAll fs d0 modesDir with
        | mk r fs1 =>
            cases r with
            | error e0 =>
                simp only [dirsLoop, hflt0, if_pos, hmk, Prod.mk.injEq] at hrun
                exact absurd hrun.1 (fun h => Except.noConfusion h)
            | ok u0 =>
                simp only [dirsLoop, hflt0, if_pos, hmk] at hrun
                rcases List.mem_cons.mp hd with hdd | hdd
                · subst hdd
                  have h1 : dirExists fs1 d = true :=
                    mkdirAll_ensures fs d modesDir u0 fs1 hdne hmk
                  have := dirsLoop_preserve_dir flt rest fs1 d h1
                  rw [hrun] at this
                  exact this
                · exact ih fs1 u fs' hrun d hdd hflt hdne
      · simp only [dirsLoop, if_neg hflt0] at hrun
        rcases List.mem_cons.mp hd with hdd | hdd
        · subst hdd; exact absurd hflt hflt0
        · exact ih fs u fs' hrun d hdd hflt hdne

/-- The Open-style loop (filter: paths under `dd`) never changes a binding
outside the `dd` subtree, provided every proper nonempty ancestor of `dd`
is already a directory (as on a real filesystem when `dd` exists). -/
theorem dirsLoop_open_preserve (dd : Path) :
    ∀ (ds : List Path) (fs : FS),
      (∀ q : Path, q ≠ [] → pathUnder q dd = true → q ≠ dd → dirExists fs q = true) →
      ∀ p : Path, pathUnder dd p = false →
      fsLookup (dirsLoop (fun d => pathUnder dd d) fs ds).2 p = fsLookup fs p := by
  intro ds
  induction ds with
  | nil => intro fs _ p _; simp [dirsLoop]
  | cons d rest ih =>
      intro fs hanc p hdp
      by_cases hflt : pathUnder dd d = true
      · cases hmk : mkdirAll fs d modesDir with
        | mk r fs1 =>
            have hkeep : fsLookup fs1 p = fsLookup fs p := by
              have hcond : pathUnder p d = false ∨ p = [] ∨ fsLookup fs p ≠ none := by
                by_cases hpd : pathUnder p d = true
                · by_cases hpnil : p = []
                  · exact Or.inr (Or.inl hpnil)
                  · rcases pathUnder_comparable hpd hflt with hpq | hpq
                    · have hpdd : p ≠ dd := by
                        intro hc; subst hc; rw [pathUnder_refl] at hdp
                        exact Bool.noConfusion hdp
                      have := hanc p hpnil hpq hpdd
                      unfold dirExists at this
                      refine Or.inr (Or.inr ?_)
                      cases hlk : fsLookup fs p with
                      | none => rw [hlk] at this; exact Bool.noConfusion this
                      | some e => exact fun h => Option.noConfusion h
                    · rw [hpq] at hdp; exact Bool.noConfusion hdp
                · exact Or.inl (Bool.eq_false_iff.mpr hpd)
              have := mkdirAll_preserve fs p d modesDir hcond
              rw [hmk] at this
              exact this
            have hanc1 : ∀ q : Path, q ≠ [] → pathUnder q dd = true → q ≠ dd →
                dirExists fs1 q = true := by
              intro q h1 h2 h3
              have := mkdirAll_preserve_dir fs d modesDir q (hanc q h1 h2 h3)
              rw [hmk] at this
              exact this
            cases r with
            | error e0 =>
                simp only [dirsLoop, hflt, if_pos, hmk]
                exact hkeep
            | ok u0 =>
                simp only [dirsLoop, hflt, if_pos, hmk]
                rw [ih fs1 hanc1 p hdp]
                exact hkeep
      · simp only [dirsLoop, if_neg hflt]
        exact ih fs hanc p hdp

/-! ### Claim C9: Create on an initialized root -/

/-- C9: `Create` on a root where the config object already exists at its
Layout-resolved path fails with the already-exists condition and leaves
the filesystem unchanged; when no config object exists and `Create`
succeeds, every (nonempty) directory returned by `Paths()` exists in the
resulting filesystem. -/
theorem create_spec (L : Layout) (fs : FS) :
    ((∃ e, fsLookup fs (L.filename ⟨.ConfigFile, ""⟩) = some e) →
      createBackend L fs = (.error (.msg "config file already exists"), fs))
    ∧ (∀ b fs', createBackend L fs = (.ok b, fs') →
        ∀ d, d ∈ L.paths → d ≠ [] → dirExists fs' d = true) := by
  constructor
  · rintro ⟨e, he⟩
    simp only [createBackend, Local.filename] at he ⊢
    rw [he]
  · intro b fs' hrun d hd hdne
    cases hcfg : fsLookup fs (L.filename ⟨.ConfigFile, ""⟩) with
    | some e =>
        simp only [createBackend, Local.filename] at hrun
        rw [hcfg] at hrun
        exact absurd (congrArg Prod.fst hrun) (by simp)
    | none =>
        simp only [createBackend, Local.filename] at hrun
        rw [hcfg] at hrun
        cases hloop : dirsLoop (fun _ => true) fs L.paths with
        | mk r fs1 =>
            cases r with
            | error e0 =>
                rw [hloop] at hrun
                exact absurd (congrArg Prod.fst hrun) (by simp)
            | ok u =>
                rw [hloop] at hrun
                simp only [Prod.mk.injEq] at hrun
                have hfs : fs1 = fs' := hrun.2
                subst hfs
                exact dirsLoop_ensures _ L.paths fs u fs1 hloop d hd rfl hdne

/-- Witness for C9 at the concrete test layout: a root holding a config
file makes `Create` fail without touching the filesystem, and `Create` on
an empty root creates the `data/aa` shard directory from `Paths()`. -/
theorem create_spec_witness :
    createBackend simpleLayout [(["config"], Entry.file modesFile [1])]
      = (.error (.msg "config file already exists"),
         [(["config"], Entry.file modesFile [1])])
    ∧ dirExists (createBackend simpleLayout []).2 ["data", "aa"] = true := by
  constructor
  · exact (create_spec simpleLayout _).1 ⟨Entry.file modesFile [1], rfl⟩
  · exact (create_spec simpleLayout []).2 ⟨simpleLayout⟩
      (createBackend simpleLayout []).2 rfl ["data", "aa"] (by decide) (by decide)

/-! ### Claim C10: Open's self-healing is confined to the data subtree -/

/-- C10: `Open` never checks the root itself.  When the data-type
directory is absent (in particular when the whole root is missing) it
creates nothing and still returns a backend; when the data directory
exists (so, on a real filesystem, its proper ancestors are directories),
every path outside the data subtree keeps its binding, and on success
every `Paths()` entry under the data directory exists. -/
theorem open_spec (L : Layout) (fs : FS) :
    (dirExists fs (L.dirname ⟨.DataFile, ""⟩) = false →
      openBackend L fs = (.ok ⟨L⟩, fs))
    ∧ ((∀ q : Path, q ≠ [] → pathUnder q (L.dirname ⟨.DataFile, ""⟩) = true →
          q ≠ L.dirname ⟨.DataFile, ""⟩ → dirExists fs q = true) →
        ∀ p : Path, pathUnder (L.dirname ⟨.DataFile, ""⟩) p = false →
          fsLookup (openBackend L fs).2 p = fsLookup fs p)
    ∧ (∀ b fs', openBackend L fs = (.ok b, fs') →
        dirExists fs (L.dirname ⟨.DataFile, ""⟩) = true →
        ∀ d, d ∈ L.paths → pathUnder (L.dirname ⟨.DataFile, ""⟩) d = true →
          d ≠ [] → dirExists fs' d = true) := by
  refine ⟨?_, ?_, ?_⟩
  · intro hdd
    simp only [openBackend, Local.dirname]
    rw [if_neg (by simp [hdd])]
  · intro hanc p hdp
    by_cases hdd : dirExists fs (L.dirname ⟨.DataFile, ""⟩) = true
    · simp only [openBackend, Local.dirname] at hdp ⊢
      rw [if_pos hdd]
      cases hloop : dirsLoop (fun d => pathUnder (L.dirname ⟨.DataFile, ""⟩) d)
          fs L.paths with
      | mk r fs1 =>
          have hpres := dirsLoop_open_preserve (L.dirname ⟨.DataFile, ""⟩)
            L.paths fs hanc p hdp
          rw [hloop] at hpres
          cases r with
          | error e0 => exact hpres
          | ok u => exact hpres
    · simp only [openBackend, Local.dirname]
      rw [if_neg hdd]
  · intro b fs' hrun hdd d hd hund hdne
    simp only [openBackend, Local.dirname] at hrun
    rw [if_pos hdd] at hrun
    cases hloop : dirsLoop (fun d => pathUnder (L.dirname ⟨.DataFile, ""⟩) d)
        fs L.paths with
    | mk r fs1 =>
        rw [hloop] at hrun
        cases r with
        | error e0 => exact absurd (congrArg Prod.fst hrun) (by simp)
        | ok u =>
            simp only [Prod.mk.injEq] at hrun
            have hfs : fs1 = fs' := hrun.2
            subst hfs
            exact dirsLoop_ensures _ L.paths fs u fs1 hloop d hd hund hdne

/-- Witness for C10 at the concrete test layout: on an empty root `Open`
succeeds and creates nothing; on a root whose `data` directory exists it
leaves `keys` absent (outside the data subtree) and creates the missing
`data/aa` shard. -/
theorem open_spec_witness :
    openBackend simpleLayout [] = (.ok ⟨simpleLayout⟩, [])
    ∧ fsLookup (openBackend simpleLayout [(["data"], Entry.dir modesDir)]).2
        ["keys"] = none
    ∧ dirExists (openBackend simpleLayout [(["data"], Entry.dir modesDir)]).2
        ["data", "aa"] = true := by
  have hanc : ∀ q : Path, q ≠ [] →
      pathUnder q (simpleLayout.dirname ⟨.DataFile, ""⟩) = true →
      q ≠ simpleLayout.dirname ⟨.DataFile, ""⟩ →
      dirExists [(["data"], Entry.dir modesDir)] q = true := by
    intro q h1 h2 h3
    rw [pathUnder_iff] at h2
    rcases h2 with ⟨t, ht⟩
    cases q with
    | nil => exact absurd rfl h1
    | cons c cs =>
        simp only [List.cons_append, simpleLayout] at ht h3
        have hc : c = "data" ∧ cs ++ t = [] := by
          constructor
          · exact (List.cons.injEq _ _ _ _ ▸ ht).1
          · exact (List.cons.injEq _ _ _ _ ▸ ht).2
        rcases List.append_eq_nil.mp hc.2 with ⟨hcs, -⟩
        subst hcs
        exact absurd (by rw [hc.1]; decide) h3
  refine ⟨?_, ?_, ?_⟩
  · exact (open_spec simpleLayout []).1 (by decide)
  · have := (open_spec simpleLayout [(["data"], Entry.dir modesDir)]).2.1 hanc
      ["keys"] (by decide)
    rw [this]
    decide
  · exact (open_spec simpleLayout [(["data"], Entry.dir modesDir)]).2.2
      ⟨simpleLayout⟩ (openBackend simpleLayout [(["data"], Entry.dir modesDir)]).2
      rfl (by decide) ["data", "aa"] (by decide) (by decide) (by decide)

/-! ### Lemmas about the stages of `Save` -/

theorem pathUnder_length_le {a b : Path} (h : pathUnder a b = true) :
    a.length ≤ b.length :=
  ((pathUnder_iff a b).mp h).length_le

theorem pathUnder_dropLast_false {p : Path} (hne : p ≠ []) :
    pathUnder p p.dropLast = false := by
  cases hu : pathUnder p p.dropLast with
  | false => rfl
  | true =>
      have hle := pathUnder_length_le hu
      rw [List.length_dropLast] at hle
      have hpos : 0 < p.length := List.length_pos.mpr hne
      omega

theorem dropLast_ne_self {p : Path} (hne : p ≠ []) : p.dropLast ≠ p := by
  intro hc
  have := congrArg List.length hc
  rw [List.length_dropLast] at this
  have hpos : 0 < p.length := List.length_pos.mpr hne
  omega

theorem parentDirOk_insert (fs : FS) (p : Path) (e : Entry) (hne : p ≠ []) :
    parentDirOk (fsInsert fs p e) p = parentDirOk fs p := by
  unfold parentDirOk dirExists
  rw [fsLookup_insert, if_neg (dropLast_ne_self hne)]

/-- The lock-directory step never changes the binding at the handle's
final file name, provided `Dirname` is the parent of `Filename`. -/
theorem saveLockDir_keep_fn (b : Local) (fs : FS) (h : Handle)
    (hd : b.dirname h = (b.filename h).dropLast) (hne : b.filename h ≠ []) :
    fsLookup (saveLockDir b fs h).2 (b.filename h)
      = fsLookup fs (b.filename h) := by
  unfold saveLockDir
  by_cases hc : (h.type = .LockFile ∧ dirExists fs (b.dirname h) = false)
  · rw [if_pos hc]
    cases hmk : mkdirAll fs (b.dirname h) modesDir with
    | mk r fsa =>
        have hkeep : fsLookup fsa (b.filename h) = fsLookup fs (b.filename h) := by
          have := mkdirAll_preserve fs (b.filename h) (b.dirname h) modesDir
            (Or.inl (by rw [hd]; exact pathUnder_dropLast_false hne))
          rw [hmk] at this
          exact this
        cases r with
        | error e0 => exact hkeep
        | ok u0 => exact hkeep
  · rw [if_neg hc]

/-- The lock-directory step is a no-op whenever the parent directory of
the final file name is already in order. -/
theorem saveLockDir_noop (b : Local) (fs : FS) (h : Handle)
    (hd : b.dirname h = (b.filename h).dropLast)
    (hpd : parentDirOk fs (b.filename h) = true) :
    saveLockDir b fs h = (.ok (), fs) := by
  unfold saveLockDir
  by_cases hc : (h.type = .LockFile ∧ dirExists fs (b.dirname h) = false)
  · rw [if_pos hc]
    have hdd : dirExists fs ((b.filename h).dropLast) = false := by
      rw [← hd]; exact hc.2
    have hnil : (b.filename h).dropLast = [] := by
      unfold parentDirOk at hpd
      rcases Bool.or_eq_true_iff.mp hpd with h1 | h1
      · exact List.isEmpty_iff.mp h1
      · rw [h1] at hdd; exact Bool.noConfusion hdd
    rw [hd, hnil]
    simp [mkdirAll, mkdirAllAux]
  · rw [if_neg hc]

/-- `saveCopy` on an occupied final name: the exclusive open fails with
the already-exists condition and the filesystem is unchanged. -/
theorem saveCopy_exist (b : Local) (fs1 : FS) (h : Handle) (rd : Reader)
    (fa : SaveFaults) (e0 : Entry)
    (hlk : fsLookup fs1 (b.filename h) = some e0) :
    saveCopy b fs1 h rd fa = (.error (.wrap "OpenFile" .exist), fs1) := by
  simp [saveCopy, openFileExcl, hlk]

/-- `saveCopy` on a free final name with its parent directory in order and
no injected faults: the object is created with exactly the reader's bytes
and the hardened mode. -/
theorem saveCopy_eq_ok (b : Local) (fs1 : FS) (h : Handle) (rd : Reader)
    (fa : SaveFaults)
    (hlk : fsLookup fs1 (b.filename h) = none)
    (hpd : parentDirOk fs1 (b.filename h) = true)
    (hre : rd.readErr = false) (hse : fa.syncErr = false)
    (hce : fa.closeErr = false) :
    saveCopy b fs1 h rd fa =
      (.ok (),
        fsInsert
          (fsInsert (fsInsert fs1 (b.filename h) (.file modesFile []))
            (b.filename h) (.file modesFile rd.bytes))
          (b.filename h) (.file modesFile rd.bytes)) := by
  have hopen : openFileExcl fs1 (b.filename h) modesFile
      = .ok (fsInsert fs1 (b.filename h) (.file modesFile [])) := by
    simp [openFileExcl, hlk, hpd]
  have hchm : chmod
      (fsInsert (fsInsert fs1 (b.filename h) (.file modesFile []))
        (b.filename h) (.file modesFile rd.bytes))
      (b.filename h) modesFile
      = .ok (fsInsert
          (fsInsert (fsInsert fs1 (b.filename h) (.file modesFile []))
            (b.filename h) (.file modesFile rd.bytes))
          (b.filename h) (.file modesFile rd.bytes)) := by
    simp [chmod, fsLookup_insert_self]
  simp [saveCopy, hopen, hre, hse, hce, hchm]

/-- Characterization of a successful `saveCopy` run. -/
theorem saveCopy_ok_char (b : Local) (fs1 : FS) (h : Handle) (rd : Reader)
    (fa : SaveFaults) (u : Unit) (fs' : FS)
    (hrun : saveCopy b fs1 h rd fa = (.ok u, fs')) :
    fsLookup fs1 (b.filename h) = none
    ∧ parentDirOk fs1 (b.filename h) = true
    ∧ fs' = fsInsert
        (fsInsert (fsInsert fs1 (b.filename h) (.file modesFile []))
          (b.filename h) (.file modesFile rd.bytes))
        (b.filename h) (.file modesFile rd.bytes) := by
  cases hlk : fsLookup fs1 (b.filename h) with
  | some e0 => rw [saveCopy_exist b fs1 h rd fa e0 hlk] at hrun; simp at hrun
  | none =>
      cases hpd : parentDirOk fs1 (b.filename h) with
      | false => simp [saveCopy, openFileExcl, hlk, hpd] at hrun
      | true =>
          cases hre : rd.readErr with
          | true => simp [saveCopy, openFileExcl, hlk, hpd, hre] at hrun
          | false =>
              cases hse : fa.syncErr with
              | true => simp [saveCopy, openFileExcl, hlk, hpd, hre, hse] at hrun
              | false =>
                  cases hce : fa.closeErr with
                  | true =>
                      simp [saveCopy, openFileExcl, hlk, hpd, hre, hse, hce] at hrun
                  | false =>
                      rw [saveCopy_eq_ok b fs1 h rd fa hlk hpd hre hse hce] at hrun
                      simp only [Prod.mk.injEq] at hrun
                      exact ⟨rfl, rfl, hrun.2.symm⟩

/-- A failing `saveCopy` run leaves the filesystem either untouched (open
failed) or with the partially written file under the final name. -/
theorem saveCopy_fail_keep (b : Local) (fs1 : FS) (h : Handle) (rd : Reader)
    (fa : SaveFaults) (e : Err) (fs' : FS)
    (hrun : saveCopy b fs1 h rd fa = (.error e, fs')) :
    fs' = fs1
    ∨ fs' = fsInsert (fsInsert fs1 (b.filename h) (.file modesFile []))
        (b.filename h) (.file modesFile rd.bytes) := by
  cases hlk : fsLookup fs1 (b.filename h) with
  | some e0 =>
      rw [saveCopy_exist b fs1 h rd fa e0 hlk] at hrun
      simp only [Prod.mk.injEq] at hrun
      exact Or.inl hrun.2.symm
  | none =>
      cases hpd : parentDirOk fs1 (b.filename h) with
      | false =>
          simp only [saveCopy, openFileExcl, hlk, hpd] at hrun
          simp only [Bool.false_eq_true, if_false, Prod.mk.injEq] at hrun
          exact Or.inl hrun.2.symm
      | true =>
          cases hre : rd.readErr with
          | true =>
              simp only [saveCopy, openFileExcl, hlk, hpd] at hrun
              simp only [if_true, hre, Prod.mk.injEq] at hrun
              exact Or.inr hrun.2.symm
          | false =>
              cases hse : fa.syncErr with
              | true =>
                  simp only [saveCopy, openFileExcl, hlk, hpd] at hrun
                  simp only [if_true, hre, hse, Bool.false_eq_true, if_false,
                    Prod.mk.injEq] at hrun
                  exact Or.inr hrun.2.symm
              | false =>
                  cases hce : fa.closeErr with
                  | true =>
                      simp only [saveCopy, openFileExcl, hlk, hpd] at hrun
                      simp only [if_true, hre, hse, hce, Bool.false_eq_true,
                        if_false, Prod.mk.injEq] at hrun
                      exact Or.inr hrun.2.symm
                  | false =>
                      rw [saveCopy_eq_ok b fs1 h rd fa hlk hpd hre hse hce] at hrun
                      simp at hrun

/-- `Load(h, 0, 0)` on an existing file yields the whole contents. -/
theorem loadContents_file (b : Local) (fs : FS) (h : Handle) (m : Nat)
    (data : List Nat) (hv : h.valid = none)
    (hlk : fsLookup fs (b.filename h) = some (.file m data)) :
    Local.loadContents b fs h 0 0 = .ok data := by
  simp [Local.loadContents, hv, hlk]

/-! ### Claim C1: Save is an exclusive create -/

/-- C1: after `Save(h, d1)` succeeds, a second `Save(h, d2)` fails with the
already-exists condition (EEXIST from the exclusive open, wrapped as
"OpenFile"), leaves the filesystem unchanged, and `Load(h, 0, 0)` still
yields `d1`.  The layout hypotheses say `Dirname h` is the parent
directory of the nonempty `Filename h`, as every Layout provides. -/
theorem save_exclusive (b : Local) (fs : FS) (h : Handle) (rd1 rd2 : Reader)
    (fa1 fa2 : SaveFaults) (fs1 : FS)
    (hd : b.dirname h = (b.filename h).dropLast) (hne : b.filename h ≠ [])
    (hsave : Local.save b fs h rd1 fa1 = (.ok (), fs1)) :
    Local.save b fs1 h rd2 fa2 = (.error (.wrap "OpenFile" .exist), fs1)
    ∧ errCause (.wrap "OpenFile" .exist) = .exist
    ∧ Local.loadContents b fs1 h 0 0 = .ok rd1.bytes := by
  cases hv : h.valid with
  | some e => simp [Local.save, hv] at hsave
  | none =>
      cases hlock : saveLockDir b fs h with
      | mk r fsa =>
          cases r with
          | error e0 => simp [Local.save, hv, hlock] at hsave
          | ok u0 =>
              have hsc : saveCopy b fsa h rd1 fa1 = (.ok (), fs1) := by
                have hx := hsave
                simp only [Local.save, hv, hlock] at hx
                exact hx
              obtain ⟨hnone, hpd, hfs1⟩ :=
                saveCopy_ok_char b fsa h rd1 fa1 () fs1 hsc
              have hlk1 : fsLookup fs1 (b.filename h)
                  = some (.file modesFile rd1.bytes) := by
                rw [hfs1]; exact fsLookup_insert_self _ _ _
              have hpd1 : parentDirOk fs1 (b.filename h) = true := by
                rw [hfs1, parentDirOk_insert _ _ _ hne,
                  parentDirOk_insert _ _ _ hne, parentDirOk_insert _ _ _ hne]
                exact hpd
              refine ⟨?_, rfl,
                loadContents_file b fs1 h modesFile rd1.bytes hv hlk1⟩
              have hnoop := saveLockDir_noop b fs1 h hd hpd1
              simp only [Local.save, hv, hnoop]
              exact saveCopy_exist b fs1 h rd2 fa2 _ hlk1

/-- Witness for C1: a data object is saved with bytes `[1,2,3]`; the
second save fails with the already-exists condition and the old contents
are still loadable. -/
theorem save_exclusive_witness :
    Local.save ⟨simpleLayout⟩ [(["data"], Entry.dir modesDir)]
        ⟨.DataFile, "aa"⟩ ⟨[[1, 2], [3]], false⟩ ⟨false, false⟩
      = (.ok (), [(["data", "aa"], Entry.file modesFile [1, 2, 3]),
                  (["data"], Entry.dir modesDir)])
    ∧ (Local.save ⟨simpleLayout⟩
          [(["data", "aa"], Entry.file modesFile [1, 2, 3]),
           (["data"], Entry.dir modesDir)]
          ⟨.DataFile, "aa"⟩ ⟨[[9]], false⟩ ⟨false, false⟩
        = (.error (.wrap "OpenFile" .exist),
           [(["data", "aa"], Entry.file modesFile [1, 2, 3]),
            (["data"], Entry.dir modesDir)])
       ∧ errCause (.wrap "OpenFile" .exist) = .exist
       ∧ Local.loadContents ⟨simpleLayout⟩
          [(["data", "aa"], Entry.file modesFile [1, 2, 3]),
           (["data"], Entry.dir modesDir)] ⟨.DataFile, "aa"⟩ 0 0
          = .ok [1, 2, 3]) :=
  ⟨by decide,
   save_exclusive ⟨simpleLayout⟩ [(["data"], Entry.dir modesDir)]
     ⟨.DataFile, "aa"⟩ ⟨[[1, 2], [3]], false⟩ ⟨[[9]], false⟩ ⟨false, false⟩
     ⟨false, false⟩
     [(["data", "aa"], Entry.file modesFile [1, 2, 3]),
      (["data"], Entry.dir modesDir)]
     (by decide) (by decide) (by decide)⟩

/-! ### Claim C2: Save/Load round-trip -/

/-- C2: for a valid handle whose object does not exist (and whose parent
directory is in order, as after Open/Create), `Save(h, data)` succeeds and
`Load(h, 0, 0)` afterwards yields exactly the saved bytes. -/
theorem save_load_roundtrip (b : Local) (fs : FS) (h : Handle) (rd : Reader)
    (fa : SaveFaults)
    (hv : h.valid = none)
    (habs : fsLookup fs (b.filename h) = none)
    (hd : b.dirname h = (b.filename h).dropLast)
    (hpd : parentDirOk fs (b.filename h) = true)
    (hre : rd.readErr = false) (hse : fa.syncErr = false)
    (hce : fa.closeErr = false) :
    (Local.save b fs h rd fa).1 = .ok ()
    ∧ Local.loadContents b (Local.save b fs h rd fa).2 h 0 0
        = .ok rd.bytes := by
  have hnoop := saveLockDir_noop b fs h hd hpd
  have hsc := saveCopy_eq_ok b fs h rd fa habs hpd hre hse hce
  have hsave : Local.save b fs h rd fa
      = (.ok (),
         fsInsert
           (fsInsert (fsInsert fs (b.filename h) (.file modesFile []))
             (b.filename h) (.file modesFile rd.bytes))
           (b.filename h) (.file modesFile rd.bytes)) := by
    simp only [Local.save, hv, hnoop]
    exact hsc
  rw [hsave]
  exact ⟨rfl, loadContents_file b _ h modesFile rd.bytes hv
    (fsLookup_insert_self _ _ _)⟩

/-- Witness for C2: saving `[1,2,3]` to a fresh data handle and loading it
back yields `[1,2,3]`. -/
theorem save_load_roundtrip_witness :
    (Local.save ⟨simpleLayout⟩ [(["data"], Entry.dir modesDir)]
        ⟨.DataFile, "aa"⟩ ⟨[[1, 2], [3]], false⟩ ⟨false, false⟩).1 = .ok ()
    ∧ Local.loadContents ⟨simpleLayout⟩
        (Local.save ⟨simpleLayout⟩ [(["data"], Entry.dir modesDir)]
          ⟨.DataFile, "aa"⟩ ⟨[[1, 2], [3]], false⟩ ⟨false, false⟩).2
        ⟨.DataFile, "aa"⟩ 0 0 = .ok [1, 2, 3] :=
  save_load_roundtrip ⟨simpleLayout⟩ [(["data"], Entry.dir modesDir)]
    ⟨.DataFile, "aa"⟩ ⟨[[1, 2], [3]], false⟩ ⟨false, false⟩
    (by decide) (by decide) (by decide) (by decide) (by decide) (by decide)
    (by decide)

/-! ### Claim C3: atomicity of Save with respect to partial writes -/

/-- Counterexample to C3 as stated: with the object at `h` absent, a
`Save` whose source errors after delivering `[1,2]` fails at the copy
stage, yet the partially written file remains under the final name and
`Test`, `Stat` and `Load` all observe it. -/
theorem save_atomic_cex :
    fsLookup [(["data"], Entry.dir modesDir)]
        (Local.filename ⟨simpleLayout⟩ ⟨.DataFile, "aa"⟩) = none
    ∧ Local.save ⟨simpleLayout⟩ [(["data"], Entry.dir modesDir)]
        ⟨.DataFile, "aa"⟩ ⟨[[1, 2]], true⟩ ⟨false, false⟩
      = (.error (.wrap "Write" (.msg "read error")),
         [(["data", "aa"], Entry.file modesFile [1, 2]),
          (["data"], Entry.dir modesDir)])
    ∧ Local.test ⟨simpleLayout⟩
        [(["data", "aa"], Entry.file modesFile [1, 2]),
         (["data"], Entry.dir modesDir)] ⟨.DataFile, "aa"⟩ = .ok true
    ∧ Local.statSize ⟨simpleLayout⟩
        [(["data", "aa"], Entry.file modesFile [1, 2]),
         (["data"], Entry.dir modesDir)] ⟨.DataFile, "aa"⟩ = .ok 2
    ∧ Local.loadContents ⟨simpleLayout⟩
        [(["data", "aa"], Entry.file modesFile [1, 2]),
         (["data"], Entry.dir modesDir)] ⟨.DataFile, "aa"⟩ 0 0
      = .ok [1, 2] := by
  decide

/-- C3 amended: when `Save` fails, the binding at the handle's final name
is either exactly what it was before the call (validation, lock-directory
or exclusive-open failure) or the partially written file holding the
bytes read from the source before the failure (copy, sync or close
failure), which stays visible under the final name. -/
theorem save_failure_artifact (b : Local) (fs : FS) (h : Handle)
    (rd : Reader) (fa : SaveFaults) (e : Err) (fs1 : FS)
    (hd : b.dirname h = (b.filename h).dropLast) (hne : b.filename h ≠ [])
    (hrun : Local.save b fs h rd fa = (.error e, fs1)) :
    fsLookup fs1 (b.filename h) = fsLookup fs (b.filename h)
    ∨ fsLookup fs1 (b.filename h) = some (.file modesFile rd.bytes) := by
  cases hv : h.valid with
  | some e0 =>
      simp only [Local.save, hv, Prod.mk.injEq] at hrun
      left
      rw [← hrun.2]
  | none =>
      cases hlock : saveLockDir b fs h with
      | mk r fsa =>
          have hkeep : fsLookup fsa (b.filename h)
              = fsLookup fs (b.filename h) := by
            have hx := saveLockDir_keep_fn b fs h hd hne
            rw [hlock] at hx
            exact hx
          cases r with
          | error e0 =>
              simp only [Local.save, hv, hlock, Prod.mk.injEq] at hrun
              left
              rw [← hrun.2]
              exact hkeep
          | ok u0 =>
              have hsc : saveCopy b fsa h rd fa = (.error e, fs1) := by
                simp only [Local.save, hv, hlock] at hrun
                exact hrun
              rcases saveCopy_fail_keep b fsa h rd fa e fs1 hsc with hk | hk
              · left; rw [hk]; exact hkeep
              · right; rw [hk]; exact fsLookup_insert_self _ _ _

/-- Witness for the amended C3: the copy-stage failure of the
counterexample leaves exactly the partially written file at the final
name. -/
theorem save_failure_artifact_witness :
    Local.save ⟨simpleLayout⟩ [(["data"], Entry.dir modesDir)]
        ⟨.DataFile, "aa"⟩ ⟨[[1, 2]], true⟩ ⟨false, false⟩
      = (.error (.wrap "Write" (.msg "read error")),
         [(["data", "aa"], Entry.file modesFile [1, 2]),
          (["data"], Entry.dir modesDir)])
    ∧ (fsLookup [(["data", "aa"], Entry.file modesFile [1, 2]),
          (["data"], Entry.dir modesDir)]
          (Local.filename ⟨simpleLayout⟩ ⟨.DataFile, "aa"⟩)
        = fsLookup [(["data"], Entry.dir modesDir)]
            (Local.filename ⟨simpleLayout⟩ ⟨.DataFile, "aa"⟩)
       ∨ fsLookup [(["data", "aa"], Entry.file modesFile [1, 2]),
            (["data"], Entry.dir modesDir)]
            (Local.filename ⟨simpleLayout⟩ ⟨.DataFile, "aa"⟩)
          = some (.file modesFile [1, 2])) :=
  ⟨by decide,
   save_failure_artifact ⟨simpleLayout⟩ [(["data"], Entry.dir modesDir)]
     ⟨.DataFile, "aa"⟩ ⟨[[1, 2]], true⟩ ⟨false, false⟩
     (.wrap "Write" (.msg "read error"))
     [(["data", "aa"], Entry.file modesFile [1, 2]),
      (["data"], Entry.dir modesDir)]
     (by decide) (by decide) (by decide)⟩

/-! ### Claim C4: which operations validate the handle first -/

/-- Counterexample to C4 as stated: `Test` and `Remove` never call
`Valid()`.  For the invalid handle `{DataFile, ""}` over a filesystem
holding a file at its resolved path, `Test` answers `true` (not a
validation error, and dependent on storage) and `Remove` even deletes the
file. -/
theorem valid_first_cex :
    Handle.valid ⟨.DataFile, ""⟩ = some (.invalidHandle "invalid Name")
    ∧ Local.test ⟨simpleLayout⟩ [(["data", ""], Entry.file modesFile [7])]
        ⟨.DataFile, ""⟩ = .ok true
    ∧ (Local.remove ⟨simpleLayout⟩ [(["data", ""], Entry.file modesFile [7])]
        ⟨.DataFile, ""⟩).1 = .ok () := by
  decide

/-- C4 amended: `Save`, `Load` and `Stat` call `Valid()` first and return
its validation error with no filesystem effect; `Test` and `Remove` do
not validate and go straight to the filesystem (`Test` reports existence
at the handle's resolved path, `Remove` deletes an existing file) even
for invalid handles. -/
theorem valid_first_amended (b : Local) (fs : FS) (h : Handle) (e : Err)
    (rd : Reader) (fa : SaveFaults) (len off : Int)
    (hv : h.valid = some e) :
    Local.save b fs h rd fa = (.error e, fs)
    ∧ Local.loadContents b fs h len off = .error e
    ∧ Local.statSize b fs h = .error e
    ∧ Local.test b fs h = .ok (fsLookup fs (b.filename h)).isSome
    ∧ (∀ m d, fsLookup fs (b.filename h) = some (.file m d) →
        (Local.remove b fs h).1 = .ok ()) := by
  refine ⟨by simp [Local.save, hv], by simp [Local.loadContents, hv],
    by simp [Local.statSize, hv], ?_, ?_⟩
  · unfold Local.test
    cases hlk : fsLookup fs (b.filename h) <;> simp [hlk]
  · intro m d hlk
    have hchm : chmod fs (b.filename h) 0o666
        = .ok (fsInsert fs (b.filename h) (.file 0o666 d)) := by
      simp [chmod, hlk]
    simp only [Local.remove, hchm]
    simp [fsRemoveEntry, fsLookup_insert_self]

/-- Witness for the amended C4 at the invalid handle `{DataFile, ""}`. -/
theorem valid_first_amended_witness :
    Handle.valid ⟨.DataFile, ""⟩ = some (.invalidHandle "invalid Name")
    ∧ Local.save ⟨simpleLayout⟩ [(["data", ""], Entry.file modesFile [7])]
        ⟨.DataFile, ""⟩ ⟨[], false⟩ ⟨false, false⟩
      = (.error (.invalidHandle "invalid Name"),
         [(["data", ""], Entry.file modesFile [7])])
    ∧ Local.loadContents ⟨simpleLayout⟩
        [(["data", ""], Entry.file modesFile [7])] ⟨.DataFile, ""⟩ 0 0
      = .error (.invalidHandle "invalid Name")
    ∧ Local.statSize ⟨simpleLayout⟩
        [(["data", ""], Entry.file modesFile [7])] ⟨.DataFile, ""⟩
      = .error (.invalidHandle "invalid Name")
    ∧ Local.test ⟨simpleLayout⟩
        [(["data", ""], Entry.file modesFile [7])] ⟨.DataFile, ""⟩ = .ok true
    ∧ (Local.remove ⟨simpleLayout⟩
        [(["data", ""], Entry.file modesFile [7])] ⟨.DataFile, ""⟩).1
      = .ok () := by
  have thm := valid_first_amended ⟨simpleLayout⟩
    [(["data", ""], Entry.file modesFile [7])] ⟨.DataFile, ""⟩
    (.invalidHandle "invalid Name") ⟨[], false⟩ ⟨false, false⟩ 0 0 (by decide)
  exact ⟨by decide, thm.1, thm.2.1, thm.2.2.1, thm.2.2.2.1,
    thm.2.2.2.2 modesFile [7] (by decide)⟩

/-! ### Claim C5: Load's offset and length semantics -/

/-- C5: on an existing object, a negative offset is rejected with a
validation error independently of the filesystem (storage is never
consulted); a non-negative offset yields the object's bytes from that
offset, capped at `length` bytes when `length > 0` and running to the end
of the object when `length ≤ 0`. -/
theorem load_spec (b : Local) (fs : FS) (h : Handle) (len off : Int)
    (m : Nat) (data : List Nat)
    (hv : h.valid = none)
    (hlk : fsLookup fs (b.filename h) = some (.file m data)) :
    (off < 0 → ∀ fs' : FS, Local.loadContents b fs' h len off
        = .error (.msg "offset is negative"))
    ∧ (0 ≤ off → Local.loadContents b fs h len off
        = .ok (if len > 0 then (data.drop off.toNat).take len.toNat
               else data.drop off.toNat)) := by
  constructor
  · intro hoff fs'
    simp [Local.loadContents, hv, hoff]
  · intro hoff
    have hnneg : ¬ (off < 0) := not_lt.mpr hoff
    simp [Local.loadContents, hv, hnneg, hlk]

/-- Witness for C5: on a 20-byte object, `Load(h, 5, 3)` yields exactly
bytes 3..7, `Load(h, 0, 3)` runs to the end, and a negative offset fails
even over an empty filesystem. -/
theorem load_spec_witness :
    Local.loadContents ⟨simpleLayout⟩
        [(["data", "aa"], Entry.file modesFile (List.range 20))]
        ⟨.DataFile, "aa"⟩ 5 3 = .ok [3, 4, 5, 6, 7]
    ∧ Local.loadContents ⟨simpleLayout⟩ [] ⟨.DataFile, "aa"⟩ 5 (-1)
      = .error (.msg "offset is negative")
    ∧ Local.loadContents ⟨simpleLayout⟩
        [(["data", "aa"], Entry.file modesFile (List.range 20))]
        ⟨.DataFile, "aa"⟩ 0 3 = .ok ((List.range 20).drop 3) := by
  have t1 := (load_spec ⟨simpleLayout⟩
    [(["data", "aa"], Entry.file modesFile (List.range 20))]
    ⟨.DataFile, "aa"⟩ 5 3 modesFile (List.range 20) (by decide) (by decide)).2
    (by decide)
  have t2 := (load_spec ⟨simpleLayout⟩
    [(["data", "aa"], Entry.file modesFile (List.range 20))]
    ⟨.DataFile, "aa"⟩ 5 (-1) modesFile (List.range 20) (by decide)
    (by decide)).1 (by decide) []
  have t3 := (load_spec ⟨simpleLayout⟩
    [(["data", "aa"], Entry.file modesFile (List.range 20))]
    ⟨.DataFile, "aa"⟩ 0 3 modesFile (List.range 20) (by decide) (by decide)).2
    (by decide)
  exact ⟨t1.trans (by decide), t2, t3.trans (by decide)⟩

/-! ### Claim C8: Remove resets the mode, then deletes -/

/-- C8: on an existing object — whatever its mode, in particular the
read-only mode `Save` hardened it to — `Remove` succeeds, deletes exactly
that binding, and `Test` afterwards answers `false`; on a missing object
the initial chmod fails with an error that `IsNotExist` classifies as
not-found, and the filesystem is unchanged. -/
theorem remove_spec (b : Local) (fs : FS) (h : Handle) (m : Nat)
    (d : List Nat) :
    (fsLookup fs (b.filename h) = some (.file m d) →
      (Local.remove b fs h).1 = .ok ()
      ∧ fsLookup (Local.remove b fs h).2 (b.filename h) = none
      ∧ (∀ p : Path, p ≠ b.filename h →
          fsLookup (Local.remove b fs h).2 p = fsLookup fs p)
      ∧ Local.test b (Local.remove b fs h).2 h = .ok false)
    ∧ (fsLookup fs (b.filename h) = none →
        Local.remove b fs h = (.error (.wrap "Chmod" .notExist), fs)
        ∧ Local.isNotExist b (.wrap "Chmod" .notExist) = true) := by
  constructor
  · intro hlk
    have hchm : chmod fs (b.filename h) 0o666
        = .ok (fsInsert fs (b.filename h) (.file 0o666 d)) := by
      simp [chmod, hlk]
    have hrem : fsRemoveEntry
        (fsInsert fs (b.filename h) (.file 0o666 d)) (b.filename h)
        = .ok (fsErase (fsInsert fs (b.filename h) (.file 0o666 d))
            (b.filename h)) := by
      simp [fsRemoveEntry, fsLookup_insert_self]
    have hrun : Local.remove b fs h
        = (.ok (), fsErase (fsInsert fs (b.filename h) (.file 0o666 d))
            (b.filename h)) := by
      simp only [Local.remove, hchm, hrem]
    rw [hrun]
    refine ⟨rfl, by simp [fsLookup_erase], ?_, ?_⟩
    · intro p hp
      rw [fsLookup_erase, if_neg hp, fsLookup_insert, if_neg hp]
    · simp [Local.test, fsLookup_erase]
  · intro hlk
    have hchm : chmod fs (b.filename h) 0o666 = .error .notExist := by
      simp [chmod, hlk]
    exact ⟨by simp only [Local.remove, hchm], rfl⟩

/-- Witness for C8: removing a saved read-only object succeeds and leaves
the sibling directory binding alone; removing a never-saved handle fails
with a not-found-classifiable error. -/
theorem remove_spec_witness :
    ((Local.remove ⟨simpleLayout⟩
        [(["data", "aa"], Entry.file modesFile [1, 2, 3]),
         (["data"], Entry.dir modesDir)] ⟨.DataFile, "aa"⟩).1 = .ok ()
     ∧ Local.test ⟨simpleLayout⟩
        (Local.remove ⟨simpleLayout⟩
          [(["data", "aa"], Entry.file modesFile [1, 2, 3]),
           (["data"], Entry.dir modesDir)] ⟨.DataFile, "aa"⟩).2
        ⟨.DataFile, "aa"⟩ = .ok false
     ∧ fsLookup (Local.remove ⟨simpleLayout⟩
          [(["data", "aa"], Entry.file modesFile [1, 2, 3]),
           (["data"], Entry.dir modesDir)] ⟨.DataFile, "aa"⟩).2 ["data"]
        = some (Entry.dir modesDir))
    ∧ (Local.remove ⟨simpleLayout⟩ [] ⟨.DataFile, "aa"⟩
        = (.error (.wrap "Chmod" .notExist), [])
       ∧ Local.isNotExist ⟨simpleLayout⟩ (.wrap "Chmod" .notExist) = true) := by
  have t1 := (remove_spec ⟨simpleLayout⟩
    [(["data", "aa"], Entry.file modesFile [1, 2, 3]),
     (["data"], Entry.dir modesDir)] ⟨.DataFile, "aa"⟩ modesFile [1, 2, 3]).1
    (by decide)
  have t2 := (remove_spec ⟨simpleLayout⟩ [] ⟨.DataFile, "aa"⟩ modesFile []).2
    (by decide)
  refine ⟨⟨t1.1, t1.2.2.2, ?_⟩, t2⟩
  have := t1.2.2.1 ["data"] (by decide)
  rw [this]
  decide

/-! ### Claims C6 and C7: the List producer -/

theorem runCallbacks_cancelled (l : List (String × Nat)) :
    runCallbacks true l = ([], l.length) := by
  induction l with
  | nil => rfl
  | cons e es ih =>
      cases hf : isFile e.2 <;>
        simp [runCallbacks, callbackResult, hf, ih]

theorem runCallbacks_draining (l : List (String × Nat)) :
    runCallbacks false l
      = ((l.filter (fun e => isFile e.2)).map Prod.fst, l.length) := by
  induction l with
  | nil => rfl
  | cons e es ih =>
      cases hf : isFile e.2 <;>
        simp [runCallbacks, callbackResult, hf, ih, List.filter_cons]

/-- C6, refuted on the code: with the cancellation signal fired before the
walk (and the consumer not draining), the producer emits nothing further
and terminates, but it does NOT stop the directory walk: it still visits
every entry of the subtree, because the `ctx.Done()` branch of the
callback returns the incoming `err`, which is `nil` at that point, so
`fs.Walk` keeps walking instead of aborting. -/
theorem list_cancelled_walk_continues (t : FTree) :
    (listProducer true t).1 = [] ∧ (listProducer true t).2 = (walkList t).length := by
  unfold listProducer
  rw [runCallbacks_cancelled]
  exact ⟨rfl, rfl⟩

/-- C7: with no cancellation and a draining consumer, `List` emits exactly
the base names of the regular-file entries of the walked subtree in walk
order — directories, character devices and other special entries are
silently skipped — and when those base names are pairwise distinct the
emitted sequence has no duplicates. -/
theorem list_names (t : FTree) :
    ((listProducer false t).1
      = ((walkList t).filter (fun e => isFile e.2)).map Prod.fst)
    ∧ ((((walkList t).filter (fun e => isFile e.2)).map Prod.fst).Nodup →
        (listProducer false t).1.Nodup) := by
  have h1 : (listProducer false t).1
      = ((walkList t).filter (fun e => isFile e.2)).map Prod.fst := by
    unfold listProducer
    rw [runCallbacks_draining]
  exact ⟨h1, fun hn => h1 ▸ hn⟩

/-- Witness for C7: a data subtree holding regular files `aa` and `bb`
(one of them inside a shard subdirectory), a character device and a
socket yields exactly `[aa, bb]`, duplicate-free. -/
theorem list_names_witness :
    (listProducer false
        (.mk "data" modeDir
          [.mk "aa" 0o400 [],
           .mk "sub" modeDir [.mk "bb" 0o400 []],
           .mk "dev" modeCharDevice [],
           .mk "sock" modeSocket []])).1 = ["aa", "bb"]
    ∧ (listProducer false
        (.mk "data" modeDir
          [.mk "aa" 0o400 [],
           .mk "sub" modeDir [.mk "bb" 0o400 []],
           .mk "dev" modeCharDevice [],
           .mk "sock" modeSocket []])).1.Nodup := by
  have thm := list_names
    (.mk "data" modeDir
      [.mk "aa" 0o400 [],
       .mk "sub" modeDir [.mk "bb" 0o400 []],
       .mk "dev" modeCharDevice [],
       .mk "sock" modeSocket []])
  exact ⟨thm.1.trans (by decide), thm.2 (by decide)⟩

end LocalBackend
